import Mathlib

/-
Formal model of the napari Points layer core: a mutable collection of
n-dimensional point annotations with per-point styling (two RGBA color
channels, per-dimension sizes, a columnar property table), interactive
editing (add / remove / move / select / copy / paste), color-mode state
machines and display-slice projection.

The repository ships only the test suite for this layer; the layer itself
is reconstructed here from the specification document, with the test suite
as the authority on concrete behavior.  Coordinates and colors are
rationals (the spec's properties are exact structural statements, never
about rounding).  Fallible operations return Except; the Python behavior
of raising before any mutation is modelled by the caller keeping the old
state on error.
-/

namespace Napari

/-- RGBA color, components as rationals in the unit interval. -/
structure RGBA where
  r : ℚ
  g : ℚ
  b : ℚ
  a : ℚ
  deriving DecidableEq, Repr

/-- A property value: categorical (string) or continuous (numeric). -/
inductive PVal where
  | str (s : String)
  | num (q : ℚ)
  deriving DecidableEq, Repr

/-- Inferred dtype of a property column. -/
inductive PDtype where
  | categorical
  | numeric
  deriving DecidableEq, Repr

/-- Modelled from the spec: one column of the Property Table, a named
ordered array of N scalar values plus the single-row default cache used
to populate newly added points. -/
structure PropColumn where
  name : String
  dtype : PDtype
  vals : List PVal
  defaultVal : PVal
  deriving DecidableEq, Repr

/-- Color-encoding mode of one color channel. -/
inductive ColorMode where
  | direct
  | cycle
  | colormap
  deriving DecidableEq, Repr

/-- Selector for the two structurally identical color channels. -/
inductive ChannelId where
  | edge
  | face
  deriving DecidableEq, Repr

/-- Modelled from the spec: one Color Resolution Engine instance.  The
colormap transfer function is the external black box consumed by the
layer, kept abstract as a function field. -/
structure ColorChannel where
  mode : ColorMode
  colorProperty : Option String
  values : List RGBA
  currentColor : RGBA
  palette : List RGBA
  cycleMap : List (PVal × RGBA)
  transfer : ℚ → RGBA
  contrastLimits : Option (ℚ × ℚ)

/-- Drag bookkeeping for move: the recorded drag-start origin and the
displacement applied so far relative to that origin. -/
structure DragState where
  origin : List ℚ
  shift : List ℚ
  deriving DecidableEq, Repr

/-- Modelled from the spec: the transient copy/paste snapshot of the
selected rows of every per-point array.  Property columns are stored
positionally, aligned with the layer's column list. -/
structure Clipboard where
  data : List (List ℚ)
  propsVals : List (List PVal)
  sizes : List (List ℚ)
  edgeColors : List RGBA
  faceColors : List RGBA

/-- Modelled from the spec: the Points layer orchestrator state.  It owns
the geometry (data) and keeps the property table, size array and both
color channels row-aligned with it. -/
structure Layer where
  ndim : Nat
  data : List (List ℚ)
  props : List PropColumn
  sizes : List (List ℚ)
  currentSize : List ℚ
  edge : ColorChannel
  face : ColorChannel
  selected : List Nat
  clipboard : Option Clipboard
  dragStart : Option DragState

/-- Python exception classes distinguished by the spec's error taxonomy. -/
inductive PyErr where
  | valueError
  | typeError
  | keyError
  deriving DecidableEq, Repr

/-- Shape classes accepted by the size setter. -/
inductive SizeSpec where
  | scalar (q : ℚ)
  | vector (v : List ℚ)
  | matrix (rows : List (List ℚ))

/-- Result of the display-slice projection: one row per visible point in
each output array. -/
structure ProjResult where
  data : List (List ℚ)
  size : List (List ℚ)
  edge : List RGBA
  face : List RGBA

/-- Componentwise vector addition (truncating zip, as the arrays always
share the layer dimensionality). -/
def vecAdd (x y : List ℚ) : List ℚ := List.zipWith (· + ·) x y

/-- Componentwise vector subtraction. -/
def vecSub (x y : List ℚ) : List ℚ := List.zipWith (· - ·) x y

/-- Apply f to the entries whose position (counted from i) is listed in
idx, leaving all others in place. -/
def mapAtIdx (idx : List Nat) (f : α → α) : Nat → List α → List α
  | _, [] => []
  | i, x :: rest => (if i ∈ idx then f x else x) :: mapAtIdx idx f (i + 1) rest

/-- Delete the entries whose position (counted from i) is listed in s;
shallow embedding of np.delete along axis 0. -/
def removeIndicesFrom (s : List Nat) : Nat → List α → List α
  | _, [] => []
  | i, x :: rest =>
      if i ∈ s then removeIndicesFrom s (i + 1) rest
      else x :: removeIndicesFrom s (i + 1) rest

/-- Keep exactly the entries whose position (counted from i) is listed in
s, in original order; shallow embedding of fancy-indexing with the sorted
index list. -/
def takeIndicesFrom (s : List Nat) : Nat → List α → List α
  | _, [] => []
  | i, x :: rest =>
      if i ∈ s then x :: takeIndicesFrom s (i + 1) rest
      else takeIndicesFrom s (i + 1) rest

/-- Transpose of a rectangular matrix whose transposed row count m is
supplied by the caller. -/
def transposeTo (m : Nat) (M : List (List ℚ)) : List (List ℚ) :=
  (List.range m).map (fun j => M.map (fun row => row.getD j 0))

/-- Read one of the two color channels. -/
def channelOf (L : Layer) : ChannelId → ColorChannel
  | .edge => L.edge
  | .face => L.face

/-- Replace one of the two color channels. -/
def setChannel (L : Layer) : ChannelId → ColorChannel → Layer
  | .edge, c => { L with edge := c }
  | .face, c => { L with face := c }

/-- Default grayscale transfer function standing in for the external
colormap black box. -/
def defaultTransfer : ℚ → RGBA := fun q => ⟨q, q, q, 1⟩

/-- Freshly initialized color channel in direct mode. -/
def defaultChannel (c : RGBA) (n : Nat) : ColorChannel :=
  { mode := .direct
    colorProperty := none
    values := List.replicate n c
    currentColor := c
    palette := [⟨1, 0, 0, 1⟩, ⟨0, 0, 1, 1⟩]
    cycleMap := []
    transfer := defaultTransfer
    contrastLimits := none }

/-- Modelled from the spec: Points layer construction.  With data present,
every property column must have exactly one entry per point, otherwise
ValueError; an empty layer accepts property columns of any length, storing
zero rows and remembering each column's first entry as the default for
future points (behavior pinned by test_empty_points_with_properties). -/
def mkPoints (ndim : Nat) (data : List (List ℚ)) (props : List PropColumn) :
    Except PyErr Layer :=
  if data = [] then
    .ok { ndim := ndim
          data := []
          props := (props.map
            (fun c => { c with vals := [], defaultVal := c.vals.headD c.defaultVal }))
          sizes := []
          currentSize := List.replicate ndim 10
          edge := defaultChannel ⟨0, 0, 0, 1⟩ 0
          face := defaultChannel ⟨1, 1, 1, 1⟩ 0
          selected := []
          clipboard := none
          dragStart := none }
  else if props.all (fun c => decide (c.vals.length = data.length)) then
    .ok { ndim := ndim
          data := data
          props := props.map (fun c => { c with defaultVal := c.vals.getLastD c.defaultVal })
          sizes := List.replicate data.length (List.replicate ndim 10)
          currentSize := List.replicate ndim 10
          edge := defaultChannel ⟨0, 0, 0, 1⟩ data.length
          face := defaultChannel ⟨1, 1, 1, 1⟩ data.length
          selected := []
          clipboard := none
          dragStart := none }
  else .error .valueError

/-- Modelled from the spec: add appends the new coordinates and fans out
to every component, appending the default property row, the current size
and each channel's current color once per new point; the added indices
become the selection. -/
def addPoints (L : Layer) (coords : List (List ℚ)) : Layer :=
  let k := coords.length
  { L with
    data := L.data ++ coords
    props := L.props.map (fun c => { c with vals := c.vals ++ List.replicate k c.defaultVal })
    sizes := L.sizes ++ List.replicate k L.currentSize
    edge := { L.edge with values := L.edge.values ++ List.replicate k L.edge.currentColor }
    face := { L.face with values := L.face.values ++ List.replicate k L.face.currentColor }
    selected := List.range' L.data.length k }

/-- Modelled from the spec: remove all currently selected points from
every per-point array (no-op when the selection is empty) and clear the
selection. -/
def removeSelected (L : Layer) : Layer :=
  if L.selected = [] then L
  else
    { L with
      data := removeIndicesFrom L.selected 0 L.data
      props := L.props.map (fun c => { c with vals := removeIndicesFrom L.selected 0 c.vals })
      sizes := removeIndicesFrom L.selected 0 L.sizes
      edge := { L.edge with values := removeIndicesFrom L.selected 0 L.edge.values }
      face := { L.face with values := removeIndicesFrom L.selected 0 L.face.values }
      selected := [] }

/-- Modelled from the spec: move translates the indexed points by a delta
relative to the recorded drag-start origin: the first call in a drag
records the origin (no net displacement), every later call computes the
delta from that fixed origin, not from the previous call. -/
def movePts (L : Layer) (idx : List Nat) (pos : List ℚ) : Layer :=
  if idx = [] then L
  else
    match L.dragStart with
    | none => { L with dragStart := some ⟨pos, vecSub pos pos⟩ }
    | some ds =>
        let delta := vecSub pos ds.origin
        let inc := vecSub delta ds.shift
        { L with
          data := mapAtIdx idx (fun row => vecAdd row inc) 0 L.data
          dragStart := some ⟨ds.origin, delta⟩ }

/-- Fold a sequence of move calls with a fixed index set over the layer. -/
def runMoves (L : Layer) (idx : List Nat) (ps : List (List ℚ)) : Layer :=
  ps.foldl (fun M p => movePts M idx p) L

/-- Modelled from the spec: copy snapshots the selected rows of every
per-point array into the clipboard, in original relative order; an empty
selection empties the clipboard. -/
def copyData (L : Layer) : Layer :=
  if L.selected = [] then { L with clipboard := none }
  else
    { L with clipboard := (some
      { data := takeIndicesFrom L.selected 0 L.data
        propsVals := L.props.map (fun c => takeIndicesFrom L.selected 0 c.vals)
        sizes := takeIndicesFrom L.selected 0 L.sizes
        edgeColors := takeIndicesFrom L.selected 0 L.edge.values
        faceColors := takeIndicesFrom L.selected 0 L.face.values }) }

/-- Internal consistency of a clipboard against the layer it is pasted
into: every snapshot array holds the same number of rows and there is one
property snapshot per column. -/
def clipOk (L : Layer) (cb : Clipboard) : Bool :=
  decide (cb.sizes.length = cb.data.length) &&
  decide (cb.edgeColors.length = cb.data.length) &&
  decide (cb.faceColors.length = cb.data.length) &&
  decide (cb.propsVals.length = L.props.length) &&
  cb.propsVals.all (fun col => decide (col.length = cb.data.length))

/-- Modelled from the spec: paste appends the clipboard contents as new
points to every per-point array and selects the pasted range; a no-op on
an empty clipboard.  Validate-then-commit: an inconsistent clipboard
changes nothing. -/
def pasteData (L : Layer) : Layer :=
  match L.clipboard with
  | none => L
  | some cb =>
      if clipOk L cb then
        { L with
          data := L.data ++ cb.data
          props := ((L.props.zip cb.propsVals).map
            (fun pr => { pr.1 with vals := pr.1.vals ++ pr.2 }))
          sizes := L.sizes ++ cb.sizes
          edge := { L.edge with values := L.edge.values ++ cb.edgeColors }
          face := { L.face with values := L.face.values ++ cb.faceColors }
          selected := List.range' L.data.length cb.data.length }
      else L

/-- Shape test for a rectangular numeric array: n rows, each of length m. -/
def isShapeB (M : List (List ℚ)) (n m : Nat) : Bool :=
  decide (M.length = n) && M.all (fun row => decide (row.length = m))

/-- Modelled from the spec: the size setter accepts a scalar (broadcast to
all points and dimensions), a length-D vector (broadcast per point), a
full N-by-D array taken verbatim, or a D-by-N array which is transposed
when its shape matches the transposed shape; anything else is a
ValueError. -/
def setSize (L : Layer) (s : SizeSpec) : Except PyErr Layer :=
  match s with
  | .scalar q =>
      .ok { L with sizes := List.replicate L.data.length (List.replicate L.ndim q) }
  | .vector v =>
      if v.length = L.ndim then .ok { L with sizes := List.replicate L.data.length v }
      else .error .valueError
  | .matrix M =>
      if isShapeB M L.data.length L.ndim then .ok { L with sizes := M }
      else if isShapeB M L.ndim L.data.length then
        .ok { L with sizes := transposeTo L.data.length M }
      else .error .valueError

/-- Look up a property column by name. -/
def findCol (props : List PropColumn) (pname : String) : Option PropColumn :=
  props.find? (fun c => decide (c.name = pname))

/-- Numeric reading of a property value (categorical values read as 0;
only ever applied to columns checked to be numeric). -/
def numOf : PVal → ℚ
  | .num q => q
  | .str _ => 0

/-- Normalize a scalar into the contrast-limit range, clamped to [0,1]. -/
def normalizeQ (lo hi v : ℚ) : ℚ :=
  if hi = lo then 0
  else
    let t := (v - lo) / (hi - lo)
    if t < 0 then 0 else if 1 < t then 1 else t

/-- Least element of a numeric column (0 for an empty column). -/
def colMin (c : List ℚ) : ℚ := c.foldl min (c.headD 0)

/-- Greatest element of a numeric column (0 for an empty column). -/
def colMax (c : List ℚ) : ℚ := c.foldl max (c.headD 0)

/-- Extend a cycle map with every previously unseen categorical value,
assigning the next palette color round-robin as values are first
encountered. -/
def cycleExtend (palette : List RGBA) (cm : List (PVal × RGBA)) (vals : List PVal) :
    List (PVal × RGBA) :=
  vals.foldl
    (fun m v =>
      if (m.find? (fun p => decide (p.1 = v))).isSome then m
      else m ++ [(v, palette.getD (m.length % palette.length) ⟨0, 0, 0, 1⟩)])
    cm

/-- Color assigned to one property value by a cycle map. -/
def cycleLookup (cm : List (PVal × RGBA)) (dflt : RGBA) (v : PVal) : RGBA :=
  match cm.find? (fun p => decide (p.1 = v)) with
  | some p => p.2
  | none => dflt

/-- Modelled from the spec: recompute a channel's per-point colors from
its driving property column.  Cycle mode looks every value up in the
(extended) cycle map; colormap mode normalizes the column into the
contrast limits and maps it through the transfer function; direct mode
never recomputes. -/
def recomputeChannel (ch : ColorChannel) (col : PropColumn) : ColorChannel :=
  match ch.mode with
  | .direct => ch
  | .cycle =>
      let cm := cycleExtend ch.palette ch.cycleMap col.vals
      { ch with cycleMap := cm, values := col.vals.map (cycleLookup cm ch.currentColor) }
  | .colormap =>
      let nums := col.vals.map numOf
      let lims :=
        match ch.contrastLimits with
        | some l => l
        | none => (colMin nums, colMax nums)
      { ch with
        contrastLimits := some lims
        values := nums.map (fun v => ch.transfer (normalizeQ lims.1 lims.2 v)) }

/-- Modelled from the spec: resolve the property column driving a
property-based color mode.  With no color property yet set, the first
property column is auto-selected with a warning (the returned flag);
with no properties at all this is a ValueError. -/
def resolveColorProperty (L : Layer) (ch : ColorChannel) :
    Except PyErr (PropColumn × ColorChannel × Bool) :=
  match ch.colorProperty with
  | none =>
      match L.props with
      | [] => .error .valueError
      | c :: _ => .ok (c, { ch with colorProperty := some c.name }, true)
  | some p =>
      match findCol L.props p with
      | none => .error .keyError
      | some c => .ok (c, ch, false)

/-- Modelled from the spec: the color-mode transition.  Switching to
direct never touches the per-point values; cycle and colormap resolve
their driving property column (auto-selecting with a warning when unset)
and recompute; colormap additionally rejects categorical columns with a
TypeError.  The returned flag records whether a warning was emitted. -/
def setColorMode (L : Layer) (chId : ChannelId) (m : ColorMode) :
    Except PyErr (Layer × Bool) :=
  let ch := channelOf L chId
  match m with
  | .direct => .ok (setChannel L chId { ch with mode := .direct }, false)
  | .cycle =>
      match resolveColorProperty L ch with
      | .error e => .error e
      | .ok (c, ch1, warn) =>
          .ok (setChannel L chId (recomputeChannel { ch1 with mode := .cycle } c), warn)
  | .colormap =>
      match resolveColorProperty L ch with
      | .error e => .error e
      | .ok (c, ch1, warn) =>
          if c.dtype = .categorical then .error .typeError
          else
            .ok (setChannel L chId (recomputeChannel { ch1 with mode := .colormap } c), warn)

/-- Modelled from the spec: direct color assignment.  Sets the channel's
current color and, in direct mode, writes it into every selected point's
row. -/
def setCurrentColor (L : Layer) (chId : ChannelId) (c : RGBA) : Layer :=
  if (channelOf L chId).mode = .direct then
    setChannel L chId
      { channelOf L chId with
        currentColor := c
        values := mapAtIdx L.selected (fun _ => c) 0 (channelOf L chId).values }
  else setChannel L chId { channelOf L chId with currentColor := c }

/-- Modelled from the spec: setting current properties records the row as
the default for future points and writes it into every selected point's
entry in every column (one supplied value per column, positionally). -/
def setCurrentProps (L : Layer) (row : List PVal) : Layer :=
  if row.length = L.props.length then
    { L with props := ((L.props.zip row).map
        (fun pr => { pr.1 with
          defaultVal := pr.2
          vals := mapAtIdx L.selected (fun _ => pr.2) 0 pr.1.vals })) }
  else L

/-- Modelled from the spec: wholesale property-table replacement.  With
points present every new column must match the point count, otherwise
ValueError; an empty layer stores the columns as zero-row defaults. -/
def setPropertiesFull (L : Layer) (cols : List PropColumn) : Except PyErr Layer :=
  if L.data = [] then
    .ok { L with props := (cols.map
      (fun c => { c with vals := [], defaultVal := c.vals.headD c.defaultVal })) }
  else if cols.all (fun c => decide (c.vals.length = L.data.length)) then
    .ok { L with props := cols }
  else .error .valueError

/-- Axes of an n-dimensional layer that are not currently displayed. -/
def notDisplayed (n : Nat) (displayed : List Nat) : List Nat :=
  (List.range n).filter (fun d => decide (d ∉ displayed))

/-- A point lies in the current display slice when its coordinates on
every non-displayed axis equal the slicing point's. -/
def matchesSlice (notDisp : List Nat) (slicePt : List ℚ) (p : List ℚ) : Bool :=
  notDisp.all (fun d => decide (p.getD d 0 = slicePt.getD d 0))

/-- Modelled from the spec: the Dimensional View Projector.  Selects the
points whose non-displayed coordinates exactly match the slicing point and
returns the displayed columns of data and size plus both color arrays for
that subset, in original relative order; an empty result is zero-row
arrays, never a failure. -/
def project (L : Layer) (slicePt : List ℚ) (displayed : List Nat) : ProjResult :=
  let nd := notDisplayed L.ndim displayed
  let idx := (List.range L.data.length).filter
      (fun i => matchesSlice nd slicePt (L.data.getD i []))
  { data := idx.map (fun i => displayed.map (fun d => (L.data.getD i []).getD d 0))
    size := idx.map (fun i => displayed.map (fun d => (L.sizes.getD i []).getD d 0))
    edge := idx.map (fun i => L.edge.values.getD i ⟨0, 0, 0, 0⟩)
    face := idx.map (fun i => L.face.values.getD i ⟨0, 0, 0, 0⟩) }

/-- Corners of the axis-aligned square of side s around each point's two
displayed coordinates. -/
def points_to_squares (points : List (List ℚ)) (sizes : List ℚ) : List (List ℚ) :=
  (points.zip sizes).flatMap
    (fun pr =>
      let r := pr.1.getD 0 0
      let c := pr.1.getD 1 0
      let h := pr.2 / 2
      [[r + h, c + h], [r + h, c - h], [r - h, c + h], [r - h, c - h]])

/-- Modelled from the spec: bounding geometry for selection-handle
rendering.  An empty index collection yields no box (None); otherwise the
four corners of the bounding box of the indexed points' squares. -/
def interaction_box (L : Layer) (index : List Nat) : Option (List (List ℚ)) :=
  match index with
  | [] => none
  | _ :: _ =>
      let pts := index.map (fun i => L.data.getD i [])
      let szs := index.map (fun i => (L.sizes.getD i []).getD 0 0)
      let corners := points_to_squares pts szs
      let rs := corners.map (fun p => p.getD 0 0)
      let cs := corners.map (fun p => p.getD 1 0)
      let rlo := rs.foldl min (rs.headD 0)
      let rhi := rs.foldl max (rs.headD 0)
      let clo := cs.foldl min (cs.headD 0)
      let chi := cs.foldl max (cs.headD 0)
      some [[rlo, clo], [rlo, chi], [rhi, chi], [rhi, clo]]

/-- One observable layer operation; the alphabet of edit sequences. -/
inductive Op where
  | add (coords : List (List ℚ))
  | removeSel
  | select (s : List Nat)
  | moveTo (idx : List Nat) (pos : List ℚ)
  | release
  | copyC
  | pasteC
  | sizeSet (s : SizeSpec)
  | colorSet (ch : ChannelId) (c : RGBA)
  | modeSet (ch : ChannelId) (m : ColorMode)
  | propsRow (row : List PVal)
  | propsSet (cols : List PropColumn)

/-- Execute one operation.  Fallible operations follow the Python
validate-then-commit discipline: on an exception the layer is left in its
prior state. -/
def step (L : Layer) : Op → Layer
  | .add cs => addPoints L cs
  | .removeSel => removeSelected L
  | .select s => { L with selected := s }
  | .moveTo idx pos => movePts L idx pos
  | .release => { L with dragStart := none }
  | .copyC => copyData L
  | .pasteC => pasteData L
  | .sizeSet s =>
      match setSize L s with
      | .ok L1 => L1
      | .error _ => L
  | .colorSet ch c => setCurrentColor L ch c
  | .modeSet ch m =>
      match setColorMode L ch m with
      | .ok p => p.1
      | .error _ => L
  | .propsRow row => setCurrentProps L row
  | .propsSet cols =>
      match setPropertiesFull L cols with
      | .ok L1 => L1
      | .error _ => L

/-- Run a whole sequence of operations. -/
def runOps (L : Layer) (ops : List Op) : Layer := ops.foldl step L

/-- Row-count consistency invariant: every per-point array (size array,
both color arrays, every property column) has exactly one row per point. -/
def wf (L : Layer) : Prop :=
  L.sizes.length = L.data.length ∧
  L.edge.values.length = L.data.length ∧
  L.face.values.length = L.data.length ∧
  ∀ c ∈ L.props, c.vals.length = L.data.length

instance wfDecidable (L : Layer) : Decidable (wf L) := by
  unfold wf
  exact inferInstance

/-- Sizes stored in a setSize result, empty on error; used to state
concrete evaluations of the size setter. -/
def sizesOf : Except PyErr Layer → List (List ℚ)
  | .ok L => L.sizes
  | .error _ => []

/-- Four concrete 2D points used by concrete evaluations. -/
def ptsA : List (List ℚ) := [[0, 0], [1, 1], [2, 2], [3, 3]]

/-- Three concrete 2D points. -/
def pts3 : List (List ℚ) := [[0, 0], [1, 1], [2, 2]]

/-- Two concrete 2D points. -/
def pts2 : List (List ℚ) := [[0, 0], [1, 1]]

/-- Two concrete 3D points whose first coordinate is 0. -/
def ptsB : List (List ℚ) := [[0, 1, 1], [0, 2, 2]]

/-- A concrete categorical property column with one entry per point of
ptsA. -/
def colA : PropColumn :=
  { name := "point_type"
    dtype := .categorical
    vals := [PVal.str "A", PVal.str "B", PVal.str "A", PVal.str "B"]
    defaultVal := PVal.str "B" }

/-- A concrete numeric property column with one entry per point of ptsA. -/
def colNum : PropColumn :=
  { name := "conf"
    dtype := .numeric
    vals := [PVal.num 0, PVal.num 1, PVal.num 2, PVal.num 3]
    defaultVal := PVal.num 3 }

/-- A concrete one-entry categorical column, shorter than ptsA. -/
def colShort : PropColumn :=
  { name := "label"
    dtype := .categorical
    vals := [PVal.str "label1"]
    defaultVal := PVal.str "label1" }

/-- Concrete layer builder for evaluations: d-dimensional points with the
given property columns and selection, default sizes and colors. -/
def testLayer (d : Nat) (pts : List (List ℚ)) (cols : List PropColumn) (sel : List Nat) :
    Layer :=
  { ndim := d
    data := pts
    props := cols
    sizes := List.replicate pts.length (List.replicate d 10)
    currentSize := List.replicate d 10
    edge := defaultChannel ⟨0, 0, 0, 1⟩ pts.length
    face := defaultChannel ⟨1, 1, 1, 1⟩ pts.length
    selected := sel
    clipboard := none
    dragStart := none }

/-- A concrete sequence of operations touching every component. -/
def exOps : List Op :=
  [ .add [[4, 4]]
  , .select [0, 2]
  , .colorSet .edge ⟨0, 1, 0, 1⟩
  , .removeSel
  , .select [1]
  , .copyC
  , .pasteC
  , .sizeSet (.scalar 5)
  , .modeSet .face .cycle
  , .propsRow [PVal.str "B"]
  , .release ]

theorem mapAtIdx_length (idx : List Nat) (f : α → α) (i : Nat) (xs : List α) :
    (mapAtIdx idx f i xs).length = xs.length := by
  induction xs generalizing i with
  | nil => rfl
  | cons x rest ih => simp [mapAtIdx, ih]

theorem mapAtIdx_getD_of_not_mem (idx : List Nat) (f : α → α) (d : α) (i j : Nat)
    (xs : List α) (h : (i + j) ∉ idx) :
    (mapAtIdx idx f i xs).getD j d = xs.getD j d := by
  induction xs generalizing i j with
  | nil => rfl
  | cons x rest ih =>
    cases j with
    | zero =>
        simp only [mapAtIdx, List.getD_cons_zero]
        rw [if_neg (by simpa using h)]
    | succ j =>
        have h1 : (i + 1) + j ∉ idx := by
          have he : (i + 1) + j = i + (j + 1) := by omega
          rw [he]; exact h
        simp only [mapAtIdx, List.getD_cons_succ]
        exact ih (i + 1) j h1

theorem mapAtIdx_getD_of_mem (idx : List Nat) (f : α → α) (d : α) (i j : Nat)
    (xs : List α) (hj : j < xs.length) (h : (i + j) ∈ idx) :
    (mapAtIdx idx f i xs).getD j d = f (xs.getD j d) := by
  induction xs generalizing i j with
  | nil => simp at hj
  | cons x rest ih =>
    cases j with
    | zero =>
        simp only [mapAtIdx, List.getD_cons_zero]
        rw [if_pos (by simpa using h)]
    | succ j =>
        have h1 : (i + 1) + j ∈ idx := by
          have he : (i + 1) + j = i + (j + 1) := by omega
          rw [he]; exact h
        simp only [mapAtIdx, List.getD_cons_succ]
        exact ih (i + 1) j (by simpa using hj) h1

theorem mapAtIdx_comp (idx : List Nat) (f g : α → α) (i : Nat) (xs : List α) :
    mapAtIdx idx f i (mapAtIdx idx g i xs) = mapAtIdx idx (fun x => f (g x)) i xs := by
  induction xs generalizing i with
  | nil => rfl
  | cons x rest ih =>
    by_cases h : i ∈ idx
    · simp [mapAtIdx, h, ih]
    · simp [mapAtIdx, h, ih]

theorem mapAtIdx_id_of (idx : List Nat) (f : α → α) (i : Nat) (xs : List α)
    (h : ∀ x ∈ xs, f x = x) :
    mapAtIdx idx f i xs = xs := by
  induction xs generalizing i with
  | nil => rfl
  | cons x rest ih =>
    simp only [mapAtIdx]
    rw [ih (i + 1) (fun y hy => h y (List.mem_cons_of_mem x hy))]
    by_cases hx : i ∈ idx
    · rw [if_pos hx, h x (List.mem_cons_self x rest)]
    · rw [if_neg hx]

theorem removeIndicesFrom_length (s : List Nat) (i : Nat) (xs : List α) :
    (removeIndicesFrom s i xs).length
      = xs.length - ((List.range' i xs.length).filter (fun j => decide (j ∈ s))).length := by
  induction xs generalizing i with
  | nil => rfl
  | cons x rest ih =>
    have hsucc : List.range' i (rest.length + 1) = i :: List.range' (i + 1) rest.length :=
      List.range'_succ i rest.length 1
    have hle : ((List.range' (i + 1) rest.length).filter (fun j => decide (j ∈ s))).length
        ≤ rest.length := le_trans (List.length_filter_le _ _) (by simp)
    by_cases h : i ∈ s
    · simp only [removeIndicesFrom, if_pos h, List.length_cons, hsucc]
      rw [List.filter_cons_of_pos (by simpa using h)]
      simp only [List.length_cons]
      rw [ih (i + 1)]
      omega
    · simp only [removeIndicesFrom, if_neg h, List.length_cons, hsucc]
      rw [List.filter_cons_of_neg (by simpa using h)]
      rw [ih (i + 1)]
      omega

theorem takeIndicesFrom_length (s : List Nat) (i : Nat) (xs : List α) :
    (takeIndicesFrom s i xs).length
      = ((List.range' i xs.length).filter (fun j => decide (j ∈ s))).length := by
  induction xs generalizing i with
  | nil => rfl
  | cons x rest ih =>
    have hsucc : List.range' i (rest.length + 1) = i :: List.range' (i + 1) rest.length :=
      List.range'_succ i rest.length 1
    by_cases h : i ∈ s
    · simp only [takeIndicesFrom, if_pos h, List.length_cons, hsucc]
      rw [List.filter_cons_of_pos (by simpa using h)]
      simp only [List.length_cons]
      rw [ih (i + 1)]
    · simp only [takeIndicesFrom, if_neg h, List.length_cons, hsucc]
      rw [List.filter_cons_of_neg (by simpa using h)]
      exact ih (i + 1)

theorem filter_mem_range_length (s : List Nat) (n : Nat) (hn : s.Nodup)
    (h : ∀ x ∈ s, x < n) :
    ((List.range n).filter (fun j => decide (j ∈ s))).length = s.length := by
  have h1 : ((List.range n).filter (fun j => decide (j ∈ s))).Nodup :=
    (List.nodup_range n).filter _
  have h2 : List.Perm ((List.range n).filter (fun j => decide (j ∈ s))) s := by
    apply List.perm_of_nodup_nodup_toFinset_eq h1 hn
    ext x
    simp only [List.mem_toFinset, List.mem_filter, List.mem_range, decide_eq_true_eq]
    exact ⟨fun hx => hx.2, fun hx => ⟨h x hx, hx⟩⟩
  exact h2.length_eq

theorem removeIndicesFrom_length_of_valid (s : List Nat) (xs : List α) (hn : s.Nodup)
    (h : ∀ x ∈ s, x < xs.length) :
    (removeIndicesFrom s 0 xs).length = xs.length - s.length := by
  rw [removeIndicesFrom_length, ← List.range_eq_range', filter_mem_range_length s _ hn h]

theorem takeIndicesFrom_length_of_valid (s : List Nat) (xs : List α) (hn : s.Nodup)
    (h : ∀ x ∈ s, x < xs.length) :
    (takeIndicesFrom s 0 xs).length = s.length := by
  rw [takeIndicesFrom_length, ← List.range_eq_range', filter_mem_range_length s _ hn h]

theorem removeIndicesFrom_sublist (s : List Nat) (i : Nat) (xs : List α) :
    List.Sublist (removeIndicesFrom s i xs) xs := by
  induction xs generalizing i with
  | nil => exact List.Sublist.refl []
  | cons x rest ih =>
    by_cases h : i ∈ s
    · simp only [removeIndicesFrom, if_pos h]
      exact (ih (i + 1)).cons x
    · simp only [removeIndicesFrom, if_neg h]
      exact (ih (i + 1)).cons₂ x

theorem getD_mem_removeIndicesFrom (s : List Nat) (d : α) (i j : Nat) (xs : List α)
    (hj : j < xs.length) (h : (i + j) ∉ s) :
    xs.getD j d ∈ removeIndicesFrom s i xs := by
  induction xs generalizing i j with
  | nil => simp at hj
  | cons x rest ih =>
    cases j with
    | zero =>
        have hi : i ∉ s := by simpa using h
        simp only [removeIndicesFrom, if_neg hi, List.getD_cons_zero]
        exact List.mem_cons_self _ _
    | succ j =>
        have h1 : (i + 1) + j ∉ s := by
          have he : (i + 1) + j = i + (j + 1) := by omega
          rw [he]; exact h
        have hrec := ih (i + 1) j (by simpa using hj) h1
        rw [List.getD_cons_succ]
        by_cases hx : i ∈ s
        · simp only [removeIndicesFrom, if_pos hx]
          exact hrec
        · simp only [removeIndicesFrom, if_neg hx]
          exact List.mem_cons_of_mem _ hrec

theorem vecAdd_assoc (x a b : List ℚ) :
    vecAdd (vecAdd x a) b = vecAdd x (vecAdd a b) := by
  induction x generalizing a b with
  | nil => rfl
  | cons h t ih =>
    cases a with
    | nil => rfl
    | cons ha ta =>
      cases b with
      | nil => rfl
      | cons hb tb =>
        simp only [vecAdd, List.zipWith_cons_cons]
        rw [show h + ha + hb = h + (ha + hb) from add_assoc h ha hb]
        exact congrArg _ (ih ta tb)

theorem vecSub_vecSub (p q p₀ : List ℚ) (hp : p.length = p₀.length)
    (hq : q.length = p₀.length) :
    vecSub (vecSub p p₀) (vecSub q p₀) = vecSub p q := by
  induction p₀ generalizing p q with
  | nil =>
    cases p with
    | nil =>
      cases q with
      | nil => rfl
      | cons _ _ => simp at hq
    | cons _ _ => simp at hp
  | cons c t ih =>
    cases p with
    | nil => simp at hp
    | cons a pa =>
      cases q with
      | nil => simp at hq
      | cons b qb =>
        simp only [vecSub, List.zipWith_cons_cons]
        rw [show a - c - (b - c) = a - b by ring]
        exact congrArg _ (ih pa qb (by simpa using hp) (by simpa using hq))

theorem vecSub_add_vecSub (p q p₀ : List ℚ) (hp : p.length = p₀.length)
    (hq : q.length = p₀.length) :
    vecAdd (vecSub q p₀) (vecSub p q) = vecSub p p₀ := by
  induction p₀ generalizing p q with
  | nil =>
    cases p with
    | nil =>
      cases q with
      | nil => rfl
      | cons _ _ => simp at hq
    | cons _ _ => simp at hp
  | cons c t ih =>
    cases p with
    | nil => simp at hp
    | cons a pa =>
      cases q with
      | nil => simp at hq
      | cons b qb =>
        simp only [vecSub, vecAdd, List.zipWith_cons_cons]
        rw [show b - c + (a - b) = a - c by ring]
        exact congrArg _ (ih pa qb (by simpa using hp) (by simpa using hq))

theorem vecAdd_vecSub_self (r p : List ℚ) (h : r.length = p.length) :
    vecAdd r (vecSub p p) = r := by
  induction r generalizing p with
  | nil => rfl
  | cons a t ih =>
    cases p with
    | nil => simp at h
    | cons b tp =>
      simp only [vecSub, vecAdd, List.zipWith_cons_cons]
      rw [show a + (b - b) = a by ring]
      exact congrArg _ (ih tp (by simpa using h))

theorem zip_map_map (l : List α) (f : α → β) (g : α × β → γ) :
    (l.zip (l.map f)).map g = l.map (fun x => g (x, f x)) := by
  induction l with
  | nil => rfl
  | cons x t ih => simp only [List.map_cons, List.zip_cons_cons, ih]

theorem getD_map_of_lt (l : List α) (f : α → β) (d : β) (d' : α) (j : Nat)
    (h : j < l.length) :
    (l.map f).getD j d = f (l.getD j d') := by
  rw [List.getD_eq_getElem?_getD, List.getD_eq_getElem?_getD, List.getElem?_map,
    List.getElem?_eq_getElem h]
  simp

theorem getD_range_of_lt (n i d : Nat) (h : i < n) : (List.range n).getD i d = i := by
  rw [List.getD_eq_getElem?_getD, List.getElem?_eq_getElem (by simpa using h)]
  simp

theorem getD_of_length_le (l : List α) (d : α) (i : Nat) (h : l.length ≤ i) :
    l.getD i d = d := by
  rw [List.getD_eq_getElem?_getD, List.getElem?_eq_none (by simpa using h)]
  rfl

theorem transposeTo_length (m : Nat) (M : List (List ℚ)) : (transposeTo m M).length = m := by
  simp [transposeTo]

theorem transposeTo_row (m : Nat) (M : List (List ℚ)) (i : Nat) (h : i < m) :
    (transposeTo m M).getD i [] = M.map (fun row => row.getD i 0) := by
  unfold transposeTo
  rw [getD_map_of_lt _ _ _ 0 i (by simpa using h), getD_range_of_lt m i 0 h]

theorem transposeTo_row_length (m : Nat) (M : List (List ℚ)) (i : Nat) (h : i < m) :
    ((transposeTo m M).getD i []).length = M.length := by
  rw [transposeTo_row m M i h, List.length_map]

theorem transposeTo_getD (m : Nat) (M : List (List ℚ)) (i j : Nat) (hi : i < m)
    (hj : j < M.length) :
    ((transposeTo m M).getD i []).getD j 0 = (M.getD j []).getD i 0 := by
  rw [transposeTo_row m M i hi, getD_map_of_lt M _ 0 [] j hj]

theorem clipOk_spec (L : Layer) (cb : Clipboard) (h : clipOk L cb = true) :
    cb.sizes.length = cb.data.length ∧ cb.edgeColors.length = cb.data.length ∧
    cb.faceColors.length = cb.data.length ∧ cb.propsVals.length = L.props.length ∧
    ∀ col ∈ cb.propsVals, col.length = cb.data.length := by
  simp only [clipOk, Bool.and_eq_true, decide_eq_true_eq, List.all_eq_true] at h
  exact ⟨h.1.1.1.1, h.1.1.1.2, h.1.1.2, h.1.2, fun col hc => by simpa using h.2 col hc⟩

theorem wf_addPoints (L : Layer) (cs : List (List ℚ)) (h : wf L) : wf (addPoints L cs) := by
  obtain ⟨h1, h2, h3, h4⟩ := h
  refine ⟨?_, ?_, ?_, ?_⟩
  · simp [addPoints, h1]
  · simp [addPoints, h2]
  · simp [addPoints, h3]
  · intro c hc
    simp only [addPoints, List.mem_map] at hc
    rcases hc with ⟨c0, hc0, rfl⟩
    simp [addPoints, h4 c0 hc0]

theorem wf_removeSelected (L : Layer) (h : wf L) : wf (removeSelected L) := by
  obtain ⟨h1, h2, h3, h4⟩ := h
  unfold removeSelected
  by_cases hs : L.selected = []
  · rw [if_pos hs]; exact ⟨h1, h2, h3, h4⟩
  · rw [if_neg hs]
    refine ⟨?_, ?_, ?_, ?_⟩
    · rw [removeIndicesFrom_length, removeIndicesFrom_length, h1]
    · rw [removeIndicesFrom_length, removeIndicesFrom_length, h2]
    · rw [removeIndicesFrom_length, removeIndicesFrom_length, h3]
    · intro c hc
      simp only [List.mem_map] at hc
      rcases hc with ⟨c0, hc0, rfl⟩
      rw [removeIndicesFrom_length, removeIndicesFrom_length, h4 c0 hc0]

theorem wf_movePts (L : Layer) (idx : List Nat) (pos : List ℚ) (h : wf L) :
    wf (movePts L idx pos) := by
  obtain ⟨h1, h2, h3, h4⟩ := h
  unfold movePts
  by_cases hi : idx = []
  · rw [if_pos hi]; exact ⟨h1, h2, h3, h4⟩
  · rw [if_neg hi]
    cases hds : L.dragStart with
    | none => exact ⟨h1, h2, h3, h4⟩
    | some ds =>
      refine ⟨?_, ?_, ?_, ?_⟩
      · simpa [mapAtIdx_length] using h1
      · simpa [mapAtIdx_length] using h2
      · simpa [mapAtIdx_length] using h3
      · intro c hc
        simpa [mapAtIdx_length] using h4 c hc

theorem wf_copyData (L : Layer) (h : wf L) : wf (copyData L) := by
  obtain ⟨h1, h2, h3, h4⟩ := h
  unfold copyData
  by_cases hs : L.selected = []
  · rw [if_pos hs]; exact ⟨h1, h2, h3, h4⟩
  · rw [if_neg hs]; exact ⟨h1, h2, h3, h4⟩

theorem wf_pasteData (L : Layer) (h : wf L) : wf (pasteData L) := by
  obtain ⟨h1, h2, h3, h4⟩ := h
  unfold pasteData
  split
  · exact ⟨h1, h2, h3, h4⟩
  · rename_i cb heq
    split
    · rename_i hok
      obtain ⟨c1, c2, c3, c4, c5⟩ := clipOk_spec L cb hok
      refine ⟨?_, ?_, ?_, ?_⟩
      · simp [h1, c1]
      · simp [h2, c2]
      · simp [h3, c3]
      · intro c hc
        simp only [List.mem_map] at hc
        rcases hc with ⟨⟨c0, col⟩, hmem, rfl⟩
        have hcol : col ∈ cb.propsVals := (List.of_mem_zip hmem).2
        have hc0 : c0 ∈ L.props := (List.of_mem_zip hmem).1
        simp [h4 c0 hc0, c5 col hcol]
    · exact ⟨h1, h2, h3, h4⟩

theorem wf_setSize_ok (L : Layer) (s : SizeSpec) (L1 : Layer)
    (hok : setSize L s = .ok L1) (h : wf L) : wf L1 := by
  obtain ⟨h1, h2, h3, h4⟩ := h
  cases s with
  | scalar q =>
      simp only [setSize] at hok
      cases hok
      exact ⟨by simp, h2, h3, h4⟩
  | vector v =>
      simp only [setSize] at hok
      by_cases hv : v.length = L.ndim
      · rw [if_pos hv] at hok
        cases hok
        exact ⟨by simp, h2, h3, h4⟩
      · rw [if_neg hv] at hok
        exact Except.noConfusion hok
  | matrix M =>
      simp only [setSize] at hok
      by_cases hm1 : isShapeB M L.data.length L.ndim = true
      · rw [if_pos hm1] at hok
        cases hok
        simp only [isShapeB, Bool.and_eq_true, decide_eq_true_eq] at hm1
        exact ⟨hm1.1, h2, h3, h4⟩
      · rw [if_neg hm1] at hok
        by_cases hm2 : isShapeB M L.ndim L.data.length = true
        · rw [if_pos hm2] at hok
          cases hok
          exact ⟨transposeTo_length _ _, h2, h3, h4⟩
        · rw [if_neg hm2] at hok
          exact Except.noConfusion hok

theorem wf_setChannel (L : Layer) (chId : ChannelId) (ch : ColorChannel)
    (h : wf L) (hv : ch.values.length = L.data.length) : wf (setChannel L chId ch) := by
  obtain ⟨h1, h2, h3, h4⟩ := h
  cases chId with
  | edge => exact ⟨h1, hv, h3, h4⟩
  | face => exact ⟨h1, h2, hv, h4⟩

theorem channelOf_values_length (L : Layer) (chId : ChannelId) (h : wf L) :
    (channelOf L chId).values.length = L.data.length := by
  obtain ⟨h1, h2, h3, h4⟩ := h
  cases chId with
  | edge => exact h2
  | face => exact h3

theorem wf_setCurrentColor (L : Layer) (chId : ChannelId) (c : RGBA) (h : wf L) :
    wf (setCurrentColor L chId c) := by
  have hv := channelOf_values_length L chId h
  unfold setCurrentColor
  by_cases hm : (channelOf L chId).mode = .direct
  · rw [if_pos hm]
    exact wf_setChannel L chId _ h (by simpa [mapAtIdx_length] using hv)
  · rw [if_neg hm]
    exact wf_setChannel L chId _ h hv

theorem resolveColorProperty_ok (L : Layer) (ch : ColorChannel) (c : PropColumn)
    (ch1 : ColorChannel) (w : Bool)
    (h : resolveColorProperty L ch = .ok (c, ch1, w)) :
    c ∈ L.props ∧ ch1.values = ch.values := by
  unfold resolveColorProperty at h
  split at h
  · split at h
    · exact Except.noConfusion h
    · rename_i c0 rest heq
      cases h
      refine ⟨?_, rfl⟩
      rw [heq]
      exact List.mem_cons_self _ _
  · rename_i p hcp
    split at h
    · exact Except.noConfusion h
    · rename_i c0 hf
      cases h
      unfold findCol at hf
      exact ⟨List.mem_of_find?_eq_some hf, rfl⟩

theorem recomputeChannel_values_length (ch : ColorChannel) (col : PropColumn) (n : Nat)
    (hv : ch.values.length = n) (hc : col.vals.length = n) :
    (recomputeChannel ch col).values.length = n := by
  cases hm : ch.mode <;> simp [recomputeChannel, hm, hv, hc]

theorem wf_setColorMode_ok (L : Layer) (chId : ChannelId) (m : ColorMode) (L1 : Layer)
    (w : Bool) (hok : setColorMode L chId m = .ok (L1, w)) (h : wf L) : wf L1 := by
  have hv := channelOf_values_length L chId h
  obtain ⟨h1, h2, h3, h4⟩ := h
  cases m with
  | direct =>
      simp only [setColorMode] at hok
      cases hok
      exact wf_setChannel L chId _ ⟨h1, h2, h3, h4⟩ hv
  | cycle =>
      simp only [setColorMode] at hok
      split at hok
      · exact Except.noConfusion hok
      · rename_i c ch1 warn hres
        cases hok
        obtain ⟨hcmem, hvals⟩ := resolveColorProperty_ok L _ c ch1 _ hres
        refine wf_setChannel L chId _ ⟨h1, h2, h3, h4⟩ ?_
        exact recomputeChannel_values_length _ c L.data.length
          (by simpa [hvals] using hv) (h4 c hcmem)
  | colormap =>
      simp only [setColorMode] at hok
      split at hok
      · exact Except.noConfusion hok
      · rename_i c ch1 warn hres
        split at hok
        · exact Except.noConfusion hok
        · rename_i hdt
          cases hok
          obtain ⟨hcmem, hvals⟩ := resolveColorProperty_ok L _ c ch1 _ hres
          refine wf_setChannel L chId _ ⟨h1, h2, h3, h4⟩ ?_
          exact recomputeChannel_values_length _ c L.data.length
            (by simpa [hvals] using hv) (h4 c hcmem)

theorem wf_setCurrentProps (L : Layer) (row : List PVal) (h : wf L) :
    wf (setCurrentProps L row) := by
  obtain ⟨h1, h2, h3, h4⟩ := h
  unfold setCurrentProps
  by_cases hr : row.length = L.props.length
  · rw [if_pos hr]
    refine ⟨h1, h2, h3, ?_⟩
    intro c hc
    simp only [List.mem_map] at hc
    rcases hc with ⟨⟨c0, v⟩, hmem, rfl⟩
    have hc0 : c0 ∈ L.props := (List.of_mem_zip hmem).1
    simpa [mapAtIdx_length] using h4 c0 hc0
  · rw [if_neg hr]; exact ⟨h1, h2, h3, h4⟩

theorem wf_setPropertiesFull_ok (L : Layer) (cols : List PropColumn) (L1 : Layer)
    (hok : setPropertiesFull L cols = .ok L1) (h : wf L) : wf L1 := by
  obtain ⟨h1, h2, h3, h4⟩ := h
  unfold setPropertiesFull at hok
  by_cases hd : L.data = []
  · rw [if_pos hd] at hok
    cases hok
    refine ⟨h1, h2, h3, ?_⟩
    intro c hc
    simp only [List.mem_map] at hc
    rcases hc with ⟨c0, hc0, rfl⟩
    simp [hd]
  · rw [if_neg hd] at hok
    by_cases hall : cols.all (fun c => decide (c.vals.length = L.data.length)) = true
    · rw [if_pos hall] at hok
      cases hok
      refine ⟨h1, h2, h3, ?_⟩
      intro c hc
      simpa using List.all_eq_true.mp hall c hc
    · rw [if_neg hall] at hok
      exact Except.noConfusion hok

theorem wf_mkPoints_ok (n : Nat) (d : List (List ℚ)) (p : List PropColumn) (L0 : Layer)
    (hok : mkPoints n d p = .ok L0) : wf L0 := by
  unfold mkPoints at hok
  by_cases hd : d = []
  · rw [if_pos hd] at hok
    cases hok
    refine ⟨rfl, rfl, rfl, ?_⟩
    intro c hc
    simp only [List.mem_map] at hc
    rcases hc with ⟨c0, hc0, rfl⟩
    rfl
  · rw [if_neg hd] at hok
    by_cases hall : p.all (fun c => decide (c.vals.length = d.length)) = true
    · rw [if_pos hall] at hok
      cases hok
      refine ⟨by simp, by simp [defaultChannel], by simp [defaultChannel], ?_⟩
      intro c hc
      simp only [List.mem_map] at hc
      rcases hc with ⟨c0, hc0, rfl⟩
      simpa using List.all_eq_true.mp hall c0 hc0
    · rw [if_neg hall] at hok
      exact Except.noConfusion hok

theorem wf_step (L : Layer) (op : Op) (h : wf L) : wf (step L op) := by
  cases op with
  | add cs => exact wf_addPoints L cs h
  | removeSel => exact wf_removeSelected L h
  | select s => exact h
  | moveTo idx pos => exact wf_movePts L idx pos h
  | release => exact h
  | copyC => exact wf_copyData L h
  | pasteC => exact wf_pasteData L h
  | sizeSet s =>
      simp only [step]
      cases hok : setSize L s with
      | ok L1 => exact wf_setSize_ok L s L1 hok h
      | error e => exact h
  | colorSet ch c => exact wf_setCurrentColor L ch c h
  | modeSet ch m =>
      simp only [step]
      cases hok : setColorMode L ch m with
      | ok pr => exact wf_setColorMode_ok L ch m pr.1 pr.2 (by rw [hok]) h
      | error e => exact h
  | propsRow row => exact wf_setCurrentProps L row h
  | propsSet cols =>
      simp only [step]
      cases hok : setPropertiesFull L cols with
      | ok L1 => exact wf_setPropertiesFull_ok L cols L1 hok h
      | error e => exact h

theorem wf_runOps (L : Layer) (ops : List Op) (h : wf L) : wf (runOps L ops) := by
  induction ops generalizing L with
  | nil => exact h
  | cons op rest ih => exact ih (step L op) (wf_step L op h)

/-- C1: for every layer construction and every sequence of layer
operations (add, remove selected, move, copy/paste, size, color and
property assignment, selection and mode changes), the property table, the
size array, the edge-color array and the face-color array each keep
exactly one row per point at every observation point, and no operation
returns in a partially-updated state: fallible operations leave the layer
unchanged on error. -/
theorem claim1_row_count_invariant :
    (∀ (n : Nat) (d : List (List ℚ)) (p : List PropColumn) (L0 : Layer),
        mkPoints n d p = .ok L0 → wf L0) ∧
    (∀ (L : Layer) (ops : List Op), wf L → wf (runOps L ops)) :=
  ⟨fun n d p L0 hok => wf_mkPoints_ok n d p L0 hok,
   fun L ops h => wf_runOps L ops h⟩

theorem claim1_witness :
    wf (testLayer 2 ptsA [colA] []) ∧ wf (runOps (testLayer 2 ptsA [colA] []) exOps) :=
  ⟨by decide, claim1_row_count_invariant.2 (testLayer 2 ptsA [colA] []) exOps (by decide)⟩

theorem getD_mem_of_lt (l : List α) (d : α) (i : Nat) (h : i < l.length) :
    l.getD i d ∈ l := by
  rw [List.getD_eq_getElem?_getD, List.getElem?_eq_getElem h]
  simp

/-- C2: removing the selection from an N-point layer leaves N minus the
selection size points, with every per-point array (data, property columns,
sizes, both color arrays) at exactly that row count; the surviving rows
are a subsequence of the originals (original relative order) containing
every non-selected row, the selection ends empty, and an empty selection
is a no-op. -/
theorem claim2_remove_selected (L : Layer) (hwf : wf L)
    (hnd : L.selected.Nodup) (hb : ∀ i ∈ L.selected, i < L.data.length) :
    (L.selected = [] → removeSelected L = L) ∧
    (removeSelected L).data.length = L.data.length - L.selected.length ∧
    (removeSelected L).sizes.length = L.data.length - L.selected.length ∧
    (removeSelected L).edge.values.length = L.data.length - L.selected.length ∧
    (removeSelected L).face.values.length = L.data.length - L.selected.length ∧
    (∀ c ∈ (removeSelected L).props,
      c.vals.length = L.data.length - L.selected.length) ∧
    List.Sublist (removeSelected L).data L.data ∧
    (∀ i, i < L.data.length → i ∉ L.selected →
      L.data.getD i [] ∈ (removeSelected L).data) ∧
    (removeSelected L).selected = [] := by
  obtain ⟨h1, h2, h3, h4⟩ := hwf
  by_cases hs : L.selected = []
  · have hR : removeSelected L = L := by
      unfold removeSelected
      rw [if_pos hs]
    rw [hR, hs]
    refine ⟨fun _ => rfl, by simp, by simp [h1], by simp [h2], by simp [h3], ?_,
      List.Sublist.refl _, ?_, rfl⟩
    · intro c hc
      simpa using h4 c hc
    · intro i hi _
      exact getD_mem_of_lt L.data [] i hi
  · have hR : removeSelected L = { L with
        data := removeIndicesFrom L.selected 0 L.data
        props := L.props.map
          (fun c => { c with vals := removeIndicesFrom L.selected 0 c.vals })
        sizes := removeIndicesFrom L.selected 0 L.sizes
        edge := { L.edge with values := removeIndicesFrom L.selected 0 L.edge.values }
        face := { L.face with values := removeIndicesFrom L.selected 0 L.face.values }
        selected := [] } := by
      unfold removeSelected
      rw [if_neg hs]
    rw [hR]
    refine ⟨fun hs' => absurd hs' hs, ?_, ?_, ?_, ?_, ?_, ?_, ?_, rfl⟩
    · exact removeIndicesFrom_length_of_valid _ _ hnd hb
    · rw [removeIndicesFrom_length_of_valid L.selected L.sizes hnd
        (fun i hi => by rw [h1]; exact hb i hi), h1]
    · rw [removeIndicesFrom_length_of_valid L.selected L.edge.values hnd
        (fun i hi => by rw [h2]; exact hb i hi), h2]
    · rw [removeIndicesFrom_length_of_valid L.selected L.face.values hnd
        (fun i hi => by rw [h3]; exact hb i hi), h3]
    · intro c hc
      simp only [List.mem_map] at hc
      rcases hc with ⟨c0, hc0, rfl⟩
      simp only []
      rw [removeIndicesFrom_length_of_valid L.selected c0.vals hnd
        (fun i hi => by rw [h4 c0 hc0]; exact hb i hi), h4 c0 hc0]
    · exact removeIndicesFrom_sublist _ _ _
    · intro i hi hns
      exact getD_mem_removeIndicesFrom L.selected [] 0 i L.data hi (by simpa using hns)

theorem claim2_witness :
    (removeSelected (testLayer 2 ptsA [colA] [0, 2])).data.length = 2 ∧
    (removeSelected (testLayer 2 ptsA [colA] [0, 2])).selected = [] ∧
    List.Sublist (removeSelected (testLayer 2 ptsA [colA] [0, 2])).data
      (testLayer 2 ptsA [colA] [0, 2]).data := by
  have h := claim2_remove_selected (testLayer 2 ptsA [colA] [0, 2])
    (by decide) (by decide) (by decide)
  exact ⟨h.2.1.trans (by decide), h.2.2.2.2.2.2.2.2, h.2.2.2.2.2.2.1⟩

theorem takeIndicesFrom_length_congr (s : List Nat) (xs : List α) (ys : List β)
    (h : xs.length = ys.length) :
    (takeIndicesFrom s 0 xs).length = (takeIndicesFrom s 0 ys).length := by
  rw [takeIndicesFrom_length, takeIndicesFrom_length, h]

theorem pasteData_none (M : Layer) (h : M.clipboard = none) : pasteData M = M := by
  unfold pasteData
  split
  · rfl
  · rename_i cb1 heq
    rw [h] at heq
    exact Option.noConfusion heq

theorem pasteData_some (L : Layer) (cb : Clipboard) (hcb : L.clipboard = some cb)
    (hok : clipOk L cb = true) :
    pasteData L = { L with
      data := L.data ++ cb.data
      props := ((L.props.zip cb.propsVals).map
        (fun pr => { pr.1 with vals := pr.1.vals ++ pr.2 }))
      sizes := L.sizes ++ cb.sizes
      edge := { L.edge with values := L.edge.values ++ cb.edgeColors }
      face := { L.face with values := L.face.values ++ cb.faceColors }
      selected := List.range' L.data.length cb.data.length } := by
  unfold pasteData
  split
  · rename_i heq
    rw [hcb] at heq
    exact Option.noConfusion heq
  · rename_i cb1 heq
    rw [hcb] at heq
    cases heq
    rw [if_pos hok]

theorem copyData_empty (M : Layer) (h : M.selected = []) :
    (copyData M).clipboard = none := by
  unfold copyData
  rw [if_pos h]

theorem copyData_of_ne (L : Layer) (h : ¬ L.selected = []) :
    copyData L = { L with clipboard := (some
      { data := takeIndicesFrom L.selected 0 L.data
        propsVals := L.props.map (fun c => takeIndicesFrom L.selected 0 c.vals)
        sizes := takeIndicesFrom L.selected 0 L.sizes
        edgeColors := takeIndicesFrom L.selected 0 L.edge.values
        faceColors := takeIndicesFrom L.selected 0 L.face.values }) } := by
  unfold copyData
  rw [if_neg h]

theorem clipOk_snapshot (L M : Layer) (hwf : wf L) (hp : M.props.length = L.props.length) :
    clipOk M
      { data := takeIndicesFrom L.selected 0 L.data
        propsVals := L.props.map (fun c => takeIndicesFrom L.selected 0 c.vals)
        sizes := takeIndicesFrom L.selected 0 L.sizes
        edgeColors := takeIndicesFrom L.selected 0 L.edge.values
        faceColors := takeIndicesFrom L.selected 0 L.face.values } = true := by
  obtain ⟨h1, h2, h3, h4⟩ := hwf
  simp only [clipOk, Bool.and_eq_true, decide_eq_true_eq, List.all_eq_true]
  refine ⟨⟨⟨⟨takeIndicesFrom_length_congr _ _ _ h1,
    takeIndicesFrom_length_congr _ _ _ h2⟩,
    takeIndicesFrom_length_congr _ _ _ h3⟩, by simpa using hp.symm⟩, ?_⟩
  intro col hcol
  simp only [List.mem_map] at hcol
  rcases hcol with ⟨c, hc, rfl⟩
  simpa using takeIndicesFrom_length_congr L.selected c.vals L.data (h4 c hc)

/-- C3: with a non-empty valid selection S, copy followed by paste appends
exactly the size of S many points whose data, property, size and color
rows equal the selected rows in original relative order; a second paste
appends the same rows again; pasting an empty clipboard changes nothing;
and copying with an empty selection empties the clipboard. -/
theorem claim3_copy_paste (L : Layer) (hwf : wf L) (hne : ¬ L.selected = [])
    (hnd : L.selected.Nodup) (hb : ∀ i ∈ L.selected, i < L.data.length) :
    (takeIndicesFrom L.selected 0 L.data).length = L.selected.length ∧
    (pasteData (copyData L)).data = L.data ++ takeIndicesFrom L.selected 0 L.data ∧
    (pasteData (copyData L)).props = L.props.map
      (fun c => { c with vals := c.vals ++ takeIndicesFrom L.selected 0 c.vals }) ∧
    (pasteData (copyData L)).sizes = L.sizes ++ takeIndicesFrom L.selected 0 L.sizes ∧
    (pasteData (copyData L)).edge.values
      = L.edge.values ++ takeIndicesFrom L.selected 0 L.edge.values ∧
    (pasteData (copyData L)).face.values
      = L.face.values ++ takeIndicesFrom L.selected 0 L.face.values ∧
    (pasteData (pasteData (copyData L))).data
      = (pasteData (copyData L)).data ++ takeIndicesFrom L.selected 0 L.data ∧
    (∀ M : Layer, M.clipboard = none → pasteData M = M) ∧
    (∀ M : Layer, M.selected = [] → (copyData M).clipboard = none) := by
  obtain ⟨h1, h2, h3, h4⟩ := hwf
  have hcopy := copyData_of_ne L hne
  have hok1 : clipOk (copyData L)
      { data := takeIndicesFrom L.selected 0 L.data
        propsVals := L.props.map (fun c => takeIndicesFrom L.selected 0 c.vals)
        sizes := takeIndicesFrom L.selected 0 L.sizes
        edgeColors := takeIndicesFrom L.selected 0 L.edge.values
        faceColors := takeIndicesFrom L.selected 0 L.face.values } = true := by
    apply clipOk_snapshot L (copyData L) ⟨h1, h2, h3, h4⟩
    rw [hcopy]
  have hc1 : (copyData L).clipboard = some
      { data := takeIndicesFrom L.selected 0 L.data
        propsVals := L.props.map (fun c => takeIndicesFrom L.selected 0 c.vals)
        sizes := takeIndicesFrom L.selected 0 L.sizes
        edgeColors := takeIndicesFrom L.selected 0 L.edge.values
        faceColors := takeIndicesFrom L.selected 0 L.face.values } := by
    rw [hcopy]
  have hpaste1 := pasteData_some (copyData L) _ hc1 hok1
  have hprops1 : (pasteData (copyData L)).props = L.props.map
      (fun c => { c with vals := c.vals ++ takeIndicesFrom L.selected 0 c.vals }) := by
    rw [hpaste1, hcopy]
    exact zip_map_map L.props (fun c => takeIndicesFrom L.selected 0 c.vals)
      (fun pr => { pr.1 with vals := pr.1.vals ++ pr.2 })
  have hc2 : (pasteData (copyData L)).clipboard = some
      { data := takeIndicesFrom L.selected 0 L.data
        propsVals := L.props.map (fun c => takeIndicesFrom L.selected 0 c.vals)
        sizes := takeIndicesFrom L.selected 0 L.sizes
        edgeColors := takeIndicesFrom L.selected 0 L.edge.values
        faceColors := takeIndicesFrom L.selected 0 L.face.values } := by
    rw [hpaste1, hcopy]
  have hok2 : clipOk (pasteData (copyData L))
      { data := takeIndicesFrom L.selected 0 L.data
        propsVals := L.props.map (fun c => takeIndicesFrom L.selected 0 c.vals)
        sizes := takeIndicesFrom L.selected 0 L.sizes
        edgeColors := takeIndicesFrom L.selected 0 L.edge.values
        faceColors := takeIndicesFrom L.selected 0 L.face.values } = true := by
    apply clipOk_snapshot L (pasteData (copyData L)) ⟨h1, h2, h3, h4⟩
    rw [hprops1, List.length_map]
  have hpaste2 := pasteData_some (pasteData (copyData L)) _ hc2 hok2
  refine ⟨takeIndicesFrom_length_of_valid _ _ hnd hb, ?_, hprops1, ?_, ?_, ?_, ?_,
    fun M hM => pasteData_none M hM, fun M hM => copyData_empty M hM⟩
  · rw [hpaste1, hcopy]
  · rw [hpaste1, hcopy]
  · rw [hpaste1, hcopy]
  · rw [hpaste1, hcopy]
  · rw [hpaste2]

theorem claim3_witness :
    (pasteData (copyData (testLayer 2 ptsA [colA] [0, 2]))).data.length = 6 ∧
    (pasteData (copyData (testLayer 2 ptsA [colA] [0, 2]))).data
      = ptsA ++ [[0, 0], [2, 2]] := by
  have h := claim3_copy_paste (testLayer 2 ptsA [colA] [0, 2])
    (by decide) (by decide) (by decide) (by decide)
  constructor
  · rw [h.2.1]
    decide
  · rw [h.2.1]
    decide

theorem resolveColorProperty_none_nil (L : Layer) (ch : ColorChannel)
    (hcp : ch.colorProperty = none) (hp : L.props = []) :
    resolveColorProperty L ch = .error .valueError := by
  unfold resolveColorProperty
  rw [hcp, hp]

theorem resolveColorProperty_none_cons (L : Layer) (ch : ColorChannel) (c : PropColumn)
    (rest : List PropColumn) (hcp : ch.colorProperty = none) (hp : L.props = c :: rest) :
    resolveColorProperty L ch = .ok (c, { ch with colorProperty := some c.name }, true) := by
  unfold resolveColorProperty
  rw [hcp, hp]

theorem resolveColorProperty_some_found (L : Layer) (ch : ColorChannel) (p : String)
    (c : PropColumn) (hcp : ch.colorProperty = some p) (hf : findCol L.props p = some c) :
    resolveColorProperty L ch = .ok (c, ch, false) := by
  simp only [resolveColorProperty, hcp, hf]

/-- C4: switching a color channel into colormap mode raises ValueError
when the layer has no properties at all, raises TypeError when the
previously selected or auto-selected property column is categorical, and
when no color property is set but the first (auto-selected) property
column is numeric it succeeds with a warning, recording the first column
as the channel's color property. -/
theorem claim4_colormap_mode_errors (L : Layer) (chId : ChannelId) :
    ((channelOf L chId).colorProperty = none → L.props = [] →
      setColorMode L chId .colormap = .error .valueError) ∧
    (∀ (c : PropColumn) (rest : List PropColumn),
      (channelOf L chId).colorProperty = none → L.props = c :: rest →
      c.dtype = .categorical → setColorMode L chId .colormap = .error .typeError) ∧
    (∀ (p : String) (c : PropColumn),
      (channelOf L chId).colorProperty = some p → findCol L.props p = some c →
      c.dtype = .categorical → setColorMode L chId .colormap = .error .typeError) ∧
    (∀ (c : PropColumn) (rest : List PropColumn),
      (channelOf L chId).colorProperty = none → L.props = c :: rest →
      c.dtype = .numeric →
      ∃ L1 : Layer, setColorMode L chId .colormap = .ok (L1, true) ∧
        (channelOf L1 chId).colorProperty = some c.name) := by
  refine ⟨?_, ?_, ?_, ?_⟩
  · intro hcp hp
    simp only [setColorMode, resolveColorProperty_none_nil L _ hcp hp]
  · intro c rest hcp hp hcat
    simp only [setColorMode, resolveColorProperty_none_cons L _ c rest hcp hp, hcat,
      reduceIte]
  · intro p c hcp hf hcat
    simp only [setColorMode, resolveColorProperty_some_found L _ p c hcp hf, hcat,
      reduceIte]
  · intro c rest hcp hp hnum
    have hdt : ¬ c.dtype = PDtype.categorical := by
      rw [hnum]
      exact fun h => PDtype.noConfusion h
    refine ⟨setChannel L chId (recomputeChannel
      { channelOf L chId with colorProperty := some c.name, mode := .colormap } c), ?_, ?_⟩
    · simp only [setColorMode, resolveColorProperty_none_cons L _ c rest hcp hp,
        if_neg hdt]
    · cases chId <;> rfl

theorem claim4_witness :
    setColorMode (testLayer 2 ptsA [] []) .edge .colormap = .error .valueError ∧
    setColorMode (testLayer 2 ptsA [colA] []) .edge .colormap = .error .typeError ∧
    (∃ L1 : Layer, setColorMode (testLayer 2 ptsA [colNum] []) .edge .colormap
        = .ok (L1, true) ∧ (channelOf L1 .edge).colorProperty = some "conf") := by
  refine ⟨(claim4_colormap_mode_errors (testLayer 2 ptsA [] []) .edge).1 rfl rfl,
    (claim4_colormap_mode_errors (testLayer 2 ptsA [colA] []) .edge).2.1 colA [] rfl rfl rfl,
    ?_⟩
  obtain ⟨L1, hL1, hcp⟩ :=
    (claim4_colormap_mode_errors (testLayer 2 ptsA [colNum] []) .edge).2.2.2 colNum [] rfl
      rfl rfl
  exact ⟨L1, hL1, by rw [hcp]; rfl⟩

/-- C5: switching a channel's color mode to direct never mutates the
per-point RGBA values, and a second switch to direct returns the very
same layer as the first, so the transition is idempotent. -/
theorem claim5_direct_mode_keeps_values (L : Layer) (chId : ChannelId) :
    ∃ L1 : Layer, setColorMode L chId .direct = .ok (L1, false) ∧
      (channelOf L1 chId).values = (channelOf L chId).values ∧
      setColorMode L1 chId .direct = .ok (L1, false) := by
  refine ⟨setChannel L chId { channelOf L chId with mode := .direct }, rfl, ?_, ?_⟩
  · cases chId <;> rfl
  · cases chId <;> rfl

/-- C6 counterexample: on a layer with as many points as dimensions
(N = D = 2), a 2-by-2 size array has the transposed D-by-N shape yet is
taken verbatim rather than auto-transposed, so the claim's unconditional
auto-transposition of D-by-N arrays is false as stated. -/
theorem claim6_counterexample :
    isShapeB [[1, 2], [3, 4]] (testLayer 2 pts2 [] []).ndim
      (testLayer 2 pts2 [] []).data.length = true ∧
    sizesOf (setSize (testLayer 2 pts2 [] []) (.matrix [[1, 2], [3, 4]]))
      = [[1, 2], [3, 4]] ∧
    sizesOf (setSize (testLayer 2 pts2 [] []) (.matrix [[1, 2], [3, 4]]))
      ≠ transposeTo 2 [[1, 2], [3, 4]] := by
  refine ⟨by decide, by decide, by decide⟩

/-- C6 (amended): a scalar size broadcasts to all N points and all D
dimensions, a length-D vector broadcasts per point, an N-by-D array is
taken verbatim, a D-by-N array that is not itself N-by-D shaped is
auto-transposed, and an array whose shape is compatible with neither
N-by-D nor D-by-N raises ValueError. -/
theorem claim6_set_size (L : Layer) (q : ℚ) (v : List ℚ) (M : List (List ℚ)) :
    (sizesOf (setSize L (.scalar q))
      = List.replicate L.data.length (List.replicate L.ndim q)) ∧
    (v.length = L.ndim →
      sizesOf (setSize L (.vector v)) = List.replicate L.data.length v) ∧
    (isShapeB M L.data.length L.ndim = true → sizesOf (setSize L (.matrix M)) = M) ∧
    (isShapeB M L.ndim L.data.length = true → isShapeB M L.data.length L.ndim = false →
      (sizesOf (setSize L (.matrix M))).length = L.data.length ∧
      (∀ i j, i < L.data.length → j < L.ndim →
        ((sizesOf (setSize L (.matrix M))).getD i []).getD j 0
          = (M.getD j []).getD i 0)) ∧
    (isShapeB M L.data.length L.ndim = false → isShapeB M L.ndim L.data.length = false →
      setSize L (.matrix M) = .error .valueError) := by
  refine ⟨rfl, ?_, ?_, ?_, ?_⟩
  · intro hv
    simp only [setSize, if_pos hv, sizesOf]
  · intro hs
    simp only [setSize, hs, reduceIte, sizesOf]
  · intro hT hV
    have hMlen : M.length = L.ndim := by
      have := hT
      simp only [isShapeB, Bool.and_eq_true, decide_eq_true_eq] at this
      exact this.1
    have hred : sizesOf (setSize L (.matrix M)) = transposeTo L.data.length M := by
      simp only [setSize, hV, hT, Bool.false_eq_true, reduceIte, sizesOf]
    constructor
    · rw [hred]
      exact transposeTo_length _ _
    · intro i j hi hj
      rw [hred]
      exact transposeTo_getD L.data.length M i j hi (by rw [hMlen]; exact hj)
  · intro hV hT
    simp only [setSize, hV, hT, Bool.false_eq_true, reduceIte]

theorem claim6_witness :
    sizesOf (setSize (testLayer 2 pts3 [] []) (.scalar 7))
      = [[7, 7], [7, 7], [7, 7]] ∧
    sizesOf (setSize (testLayer 2 pts3 [] []) (.vector [1, 2]))
      = [[1, 2], [1, 2], [1, 2]] ∧
    sizesOf (setSize (testLayer 2 pts3 [] []) (.matrix [[1, 2], [3, 4], [5, 6]]))
      = [[1, 2], [3, 4], [5, 6]] ∧
    ((sizesOf (setSize (testLayer 2 pts3 [] [])
      (.matrix [[1, 2, 3], [4, 5, 6]]))).getD 2 []).getD 1 0 = 6 ∧
    setSize (testLayer 2 pts3 [] []) (.matrix [[1, 2], [3, 4]])
      = .error .valueError := by
  refine ⟨?_, ?_, ?_, ?_, ?_⟩
  · exact (claim6_set_size (testLayer 2 pts3 [] []) 7 [] []).1.trans (by decide)
  · exact ((claim6_set_size (testLayer 2 pts3 [] []) 0 [1, 2] []).2.1
      (by decide)).trans (by decide)
  · exact (claim6_set_size (testLayer 2 pts3 [] []) 0 []
      [[1, 2], [3, 4], [5, 6]]).2.2.1 (by decide)
  · exact (((claim6_set_size (testLayer 2 pts3 [] []) 0 []
      [[1, 2, 3], [4, 5, 6]]).2.2.2.1 (by decide) (by decide)).2 2 1 (by decide)
      (by decide)).trans (by decide)
  · exact (claim6_set_size (testLayer 2 pts3 [] []) 0 []
      [[1, 2], [3, 4]]).2.2.2.2 (by decide) (by decide)

theorem movePts_first (L : Layer) (idx : List Nat) (pos : List ℚ) (hidx : ¬ idx = [])
    (hds : L.dragStart = none) :
    movePts L idx pos = { L with dragStart := some ⟨pos, vecSub pos pos⟩ } := by
  unfold movePts
  rw [if_neg hidx]
  split
  · rfl
  · rename_i ds heq
    rw [hds] at heq
    exact Option.noConfusion heq

theorem runMoves_tracked (L : Layer) (idx : List Nat) (hidx : ¬ idx = []) (p0 : List ℚ) :
    ∀ (ps : List (List ℚ)) (q : List ℚ), q.length = p0.length →
      (∀ p ∈ ps, p.length = p0.length) →
      runMoves { L with
          data := mapAtIdx idx (fun r => vecAdd r (vecSub q p0)) 0 L.data
          dragStart := some ⟨p0, vecSub q p0⟩ } idx ps
      = { L with
          data := mapAtIdx idx (fun r => vecAdd r (vecSub (ps.getLastD q) p0)) 0 L.data
          dragStart := some ⟨p0, vecSub (ps.getLastD q) p0⟩ } := by
  intro ps
  induction ps with
  | nil =>
    intro q hq _
    rfl
  | cons p ps ih =>
    intro q hq hps
    have hp : p.length = p0.length := hps p (List.mem_cons_self _ _)
    have hps' : ∀ r ∈ ps, r.length = p0.length :=
      fun r hr => hps r (List.mem_cons_of_mem _ hr)
    have hstep : movePts { L with
          data := mapAtIdx idx (fun r => vecAdd r (vecSub q p0)) 0 L.data
          dragStart := some ⟨p0, vecSub q p0⟩ } idx p
        = { L with
          data := mapAtIdx idx (fun r => vecAdd r (vecSub p p0)) 0 L.data
          dragStart := some ⟨p0, vecSub p p0⟩ } := by
      simp only [movePts, if_neg hidx, mapAtIdx_comp, vecSub_vecSub p q p0 hp hq,
        vecAdd_assoc, vecSub_add_vecSub p q p0 hp hq]
    calc runMoves { L with
          data := mapAtIdx idx (fun r => vecAdd r (vecSub q p0)) 0 L.data
          dragStart := some ⟨p0, vecSub q p0⟩ } idx (p :: ps)
        = runMoves { L with
            data := mapAtIdx idx (fun r => vecAdd r (vecSub p p0)) 0 L.data
            dragStart := some ⟨p0, vecSub p p0⟩ } idx ps := by
          show runMoves (movePts _ idx p) idx ps = _
          rw [hstep]
      _ = { L with
            data := mapAtIdx idx
              (fun r => vecAdd r (vecSub (ps.getLastD p) p0)) 0 L.data
            dragStart := some ⟨p0, vecSub (ps.getLastD p) p0⟩ } := ih p hp hps'
      _ = { L with
            data := mapAtIdx idx
              (fun r => vecAdd r (vecSub ((p :: ps).getLastD q) p0)) 0 L.data
            dragStart := some ⟨p0, vecSub ((p :: ps).getLastD q) p0⟩ } := by
          rw [List.getLastD_cons]

/-- C7: with no drag in progress, the first move call records the
drag-start origin and applies no net displacement; after any sequence of
subsequent move calls with the same index set, each indexed point's total
displacement from its pre-drag coordinates equals the last position minus
the recorded origin (the delta is measured from the fixed origin, not
from the previous call), and points outside the index set are unchanged. -/
theorem claim7_move_drag (L : Layer) (idx : List Nat) (p0 : List ℚ) (ps : List (List ℚ))
    (hds : L.dragStart = none) (hidx : ¬ idx = [])
    (hrow : ∀ row ∈ L.data, row.length = p0.length)
    (hps : ∀ p ∈ ps, p.length = p0.length) :
    (movePts L idx p0).data = L.data ∧
    (movePts L idx p0).dragStart = some ⟨p0, vecSub p0 p0⟩ ∧
    (∀ i ∈ idx, i < L.data.length →
      (runMoves (movePts L idx p0) idx ps).data.getD i []
        = vecAdd (L.data.getD i []) (vecSub (ps.getLastD p0) p0)) ∧
    (∀ i, i ∉ idx →
      (runMoves (movePts L idx p0) idx ps).data.getD i [] = L.data.getD i []) := by
  have hL1 : movePts L idx p0 = { L with
      data := mapAtIdx idx (fun r => vecAdd r (vecSub p0 p0)) 0 L.data
      dragStart := some ⟨p0, vecSub p0 p0⟩ } := by
    rw [movePts_first L idx p0 hidx hds,
      mapAtIdx_id_of idx _ 0 L.data (fun row hr => vecAdd_vecSub_self row p0 (hrow row hr))]
  have hfin : runMoves (movePts L idx p0) idx ps
      = { L with
          data := mapAtIdx idx (fun r => vecAdd r (vecSub (ps.getLastD p0) p0)) 0 L.data
          dragStart := some ⟨p0, vecSub (ps.getLastD p0) p0⟩ } := by
    rw [hL1]
    exact runMoves_tracked L idx hidx p0 ps p0 rfl hps
  refine ⟨?_, ?_, ?_, ?_⟩
  · rw [movePts_first L idx p0 hidx hds]
  · rw [movePts_first L idx p0 hidx hds]
  · intro i hi hilt
    rw [hfin]
    exact mapAtIdx_getD_of_mem idx _ [] 0 i L.data hilt (by simpa using hi)
  · intro i hni
    rw [hfin]
    exact mapAtIdx_getD_of_not_mem idx _ [] 0 i L.data (by simpa using hni)

theorem claim7_witness :
    (runMoves (movePts (testLayer 2 ptsA [] []) [0] [0, 0]) [0] [[10, 10]]).data.getD 0 []
      = vecAdd ((testLayer 2 ptsA [] []).data.getD 0 []) (vecSub [10, 10] [0, 0]) ∧
    (runMoves (movePts (testLayer 2 ptsA [] []) [0] [0, 0]) [0] [[10, 10]]).data.getD 1 []
      = (testLayer 2 ptsA [] []).data.getD 1 [] := by
  have h := claim7_move_drag (testLayer 2 ptsA [] []) [0] [0, 0] [[10, 10]]
    rfl (by decide) (by decide) (by decide)
  exact ⟨h.2.2.1 0 (by decide) (by decide), h.2.2.2 1 (by decide)⟩

/-- C8 counterexample: constructing an empty layer (N = 0) with a
one-entry property column (length 1, different from N = 0) succeeds
instead of raising ValueError, as pinned by
test_empty_points_with_properties, so the claim is false at N = 0. -/
theorem claim8_counterexample :
    colShort.vals.length ≠ ([] : List (List ℚ)).length ∧
    (mkPoints 2 [] [colShort]).isOk = true :=
  ⟨by decide, rfl⟩

/-- C8 (amended): constructing a Points layer with at least one point and
a property column whose length differs from the point count N fails with
ValueError at creation time; an empty layer (N = 0) instead accepts
columns of any length, keeping their first entries as default values. -/
theorem claim8_props_length_mismatch (n : Nat) (d : List (List ℚ))
    (cols : List PropColumn) (hd : ¬ d = [])
    (hbad : ∃ c ∈ cols, c.vals.length ≠ d.length) :
    mkPoints n d cols = .error .valueError := by
  unfold mkPoints
  rw [if_neg hd]
  have hall : cols.all (fun c => decide (c.vals.length = d.length)) = false := by
    rw [List.all_eq_false]
    obtain ⟨c, hc, hne⟩ := hbad
    exact ⟨c, hc, by simpa using hne⟩
  rw [if_neg (by simp [hall])]

theorem claim8_witness : mkPoints 2 ptsA [colShort] = .error .valueError :=
  claim8_props_length_mismatch 2 ptsA [colShort] (by decide)
    ⟨colShort, by decide, by decide⟩

/-- C9: projecting a layer onto a slicing point whose non-displayed
coordinates match no point yields zero-row arrays for the data, the sizes
and both color channels; the projection is total and never yields a
missing value. -/
theorem claim9_empty_slice (L : Layer) (slicePt : List ℚ) (displayed : List Nat)
    (h : ∀ i < L.data.length,
      matchesSlice (notDisplayed L.ndim displayed) slicePt (L.data.getD i []) = false) :
    (project L slicePt displayed).data = [] ∧
    (project L slicePt displayed).size = [] ∧
    (project L slicePt displayed).edge = [] ∧
    (project L slicePt displayed).face = [] := by
  have hidx : (List.range L.data.length).filter
      (fun i => matchesSlice (notDisplayed L.ndim displayed) slicePt (L.data.getD i []))
      = [] := by
    apply List.filter_eq_nil_iff.mpr
    intro i hi
    simp only [List.mem_range] at hi
    rw [h i hi]
    exact Bool.false_ne_true
  refine ⟨?_, ?_, ?_, ?_⟩
  all_goals simp only [project]
  all_goals rw [hidx]
  all_goals rfl

theorem claim9_witness :
    (project (testLayer 3 ptsB [] []) [5, 0, 0] [1, 2]).data = [] ∧
    (project (testLayer 3 ptsB [] []) [5, 0, 0] [1, 2]).size = [] ∧
    (project (testLayer 3 ptsB [] []) [5, 0, 0] [1, 2]).edge = [] ∧
    (project (testLayer 3 ptsB [] []) [5, 0, 0] [1, 2]).face = [] :=
  claim9_empty_slice (testLayer 3 ptsB [] []) [5, 0, 0] [1, 2] (by decide)

/-- C10: requesting the interaction box of an empty index collection
returns no bounding geometry (None) rather than a zero-row array or an
error, for every layer state. -/
theorem claim10_interaction_box_empty (L : Layer) : interaction_box L [] = none := rfl

end Napari
